import Mathlib

/-!
Shallow embedding of the original glue code of the MedNIST end-to-end
notebook (`day1notebooks/lab2_end_to_end.ipynb`): data-directory
selection (cell 4), the download guard (cell 6), file/label enumeration
(cell 10), the manual random-draw split (cell 14), the `MedNISTDataset`
class (cell 18), the hand-rolled training loop's loss averaging and
checkpointing bookkeeping (cell 22), the revised seeded partitioning
(cell 36), and the final cleanup (cell 40).

Conventions: Python floats appearing in comparisons are embedded as
rationals; the numpy global random stream and the private seeded
`RandomState` shuffle are abstracted as explicit parameters; the file
system is a predicate on path strings; Python exceptions are `Except`.
-/

namespace Lab2

/-- Model of `os.path.join` on two components, as used by the notebook
(all components here are plain names, so joining is separator
concatenation). -/
def pathJoin (a b : String) : String := a ++ "/" ++ b

/-- Cell 4: `directory = os.environ.get("MONAI_DATA_DIRECTORY")` and
`root_dir = tempfile.mkdtemp() if directory is None else directory`.
`env` is the process environment; `tmp` is the fresh directory that
`tempfile.mkdtemp()` returns. -/
def rootDir (env : String → Option String) (tmp : String) : String :=
  match env "MONAI_DATA_DIRECTORY" with
  | none => tmp
  | some directory => directory

/-- Abstract file-system state: which path strings currently exist. -/
def FS : Type := String → Bool

/-- Cell 6: `if not os.path.exists(data_dir): download_and_extract(...)`.
`download` models `monai.apps.download_and_extract` as a file-system
transformer that may fail (a raised exception is `Except.error`); the
cell installs no handler, so its result is returned as is. -/
def downloadCell (fs : FS) (data_dir : String) (download : FS → Except ε FS) :
    Except ε FS :=
  if fs data_dir then Except.ok fs else download fs

/-- A path lies in the tree rooted at `root`: it is `root` itself or has
`root ++ "/"` as an initial segment. -/
def underDir (root p : String) : Bool :=
  p == root || String.isPrefixOf (root ++ "/") p

/-- Cell 40: `if directory is None: shutil.rmtree(root_dir)`, acting on
the abstract file system: when `directory` is `none` every path in the
tree rooted at `root_dir` is removed; otherwise nothing changes. -/
def cleanup (directory : Option String) (root_dir : String) (fs : FS) : FS :=
  match directory with
  | none => fun p => if underDir root_dir p then false else fs p
  | some _ => fs

/-- Cell 10: `class_names = sorted(x for x in os.listdir(data_dir) if
os.path.isdir(os.path.join(data_dir, x)))`. `listdir` and `isdir` model
the corresponding `os` calls. -/
def classNames (listdir : String → List String) (isdir : String → Bool)
    (data_dir : String) : List String :=
  List.insertionSort (· ≤ ·)
    ((listdir data_dir).filter (fun x => isdir (pathJoin data_dir x)))

/-- Cell 10: `image_files[i] = [os.path.join(data_dir, class_names[i], x)
for x in os.listdir(os.path.join(data_dir, class_names[i]))]` for each
class index `i`. -/
def imageFiles (listdir : String → List String) (isdir : String → Bool)
    (data_dir : String) : List (List String) :=
  (classNames listdir isdir data_dir).map
    (fun c => (listdir (pathJoin data_dir c)).map
      (fun x => pathJoin (pathJoin data_dir c) x))

/-- Cell 10: `num_each = [len(image_files[i]) for i in range(num_class)]`. -/
def numEach (listdir : String → List String) (isdir : String → Bool)
    (data_dir : String) : List Nat :=
  (imageFiles listdir isdir data_dir).map List.length

/-- Cell 10's accumulation loop, with its running class index as first
argument: `image_files_list.extend(image_files[i])` and
`image_class.extend([i] * num_each[i])` for `i in range(num_class)`. -/
def buildLists : Nat → List (List String) → List String × List Nat
  | _, [] => ([], [])
  | i, fs :: rest =>
    let r := buildLists (i + 1) rest
    (fs ++ r.1, List.replicate fs.length i ++ r.2)

/-- Cell 10: the flattened file list. -/
def imageFilesList (listdir : String → List String) (isdir : String → Bool)
    (data_dir : String) : List String :=
  (buildLists 0 (imageFiles listdir isdir data_dir)).1

/-- Cell 10: the parallel list of integer class labels. -/
def imageClass (listdir : String → List String) (isdir : String → Bool)
    (data_dir : String) : List Nat :=
  (buildLists 0 (imageFiles listdir isdir data_dir)).2

/-- The routing loop shared by both split cells: item `n` goes to the
validation lists when its tag routes to 1, to the test lists when it
routes to 2, and to the training lists otherwise (tag 0). In cell 14 the
tag is the random draw classified by the `if`/`elif`/`else` chain; in
cell 36 it is `groups[n]`, indexing `image_sets = (train, val, test)`.
The result is `((train_x, train_y), (val_x, val_y), (test_x, test_y))`. -/
def routeSplit (dest : τ → Nat) :
    List τ → List α → List β →
    (List α × List β) × (List α × List β) × (List α × List β)
  | t :: ts, x :: xs, y :: ys =>
    let r := routeSplit dest ts xs ys
    if dest t = 1 then (r.1, (x :: r.2.1.1, y :: r.2.1.2), r.2.2)
    else if dest t = 2 then (r.1, r.2.1, (x :: r.2.2.1, y :: r.2.2.2))
    else ((x :: r.1.1, y :: r.1.2), r.2.1, r.2.2)
  | _, _, _ => (([], []), ([], []), ([], []))

/-- Cell 14's classification of one draw `rann = np.random.random()`:
`if rann < val_frac` → validation, `elif rann < test_frac + val_frac` →
test, `else` → training, with `val_frac = test_frac = 0.1`. -/
def drawDest (rann : ℚ) : Nat :=
  if rann < 1/10 then 1 else if rann < 1/10 + 1/10 then 2 else 0

/-- Cell 14: the manual split, `draws` being the successive values of
`np.random.random()` consumed by the loop, one per item. -/
def manualSplit (draws : List ℚ) (imgs : List α) (labels : List β) :
    (List α × List β) × (List α × List β) × (List α × List β) :=
  routeSplit drawDest draws imgs labels

/-- Cell 36: the `groups` array before shuffling: `validation_count`
ones, then `test_count` twos, then zeros, with
`validation_count = test_count = floor(0.1 * num_total)`. -/
def initialGroups (num_total : Nat) : List Nat :=
  List.replicate (num_total / 10) 1 ++ List.replicate (num_total / 10) 2 ++
    List.replicate (num_total - num_total / 10 - num_total / 10) 0

/-- Cell 36's distribution loop: `image_sets[groups[n]].append(...)` and
`label_sets[groups[n]].append(...)` for `n in range(num_total)`. -/
def revisedSplit (groups : List Nat) (imgs : List α) (labels : List β) :
    (List α × List β) × (List α × List β) × (List α × List β) :=
  routeSplit id groups imgs labels

/-- Cell 36 as a function of the ambient global numpy random state and of
`dataset_seed`: the shuffle is performed by the private
`np.random.RandomState(dataset_seed)` — abstracted here as an arbitrary
deterministic `shuffle` function of the seed — so the `globalState`
argument is never consulted. -/
def revisedPartition (shuffle : Nat → List Nat → List Nat) (globalState : Nat)
    (seed : Nat) (imgs : List α) (labels : List β) :
    (List α × List β) × (List α × List β) × (List α × List β) :=
  revisedSplit (shuffle seed (initialGroups imgs.length)) imgs labels

/-- The mutable bookkeeping of cell 22's epoch loop. -/
structure LoopState where
  best_metric : ℚ
  best_metric_epoch : Int
  epoch : Nat
  metric_values : List ℚ
  saves : List Nat
  deriving Repr, DecidableEq

/-- One epoch of cell 22's validation bookkeeping, applied to that
epoch's computed AUC: the AUC is appended to `metric_values`; iff
`auc_metric > best_metric` the weights are saved (the saved epoch's
1-based number is recorded in `saves`) and `best_metric`,
`best_metric_epoch = epoch + 1` are updated. -/
def epochStep (s : LoopState) (auc : ℚ) : LoopState :=
  if auc > s.best_metric then
    { best_metric := auc,
      best_metric_epoch := (s.epoch : Int) + 1,
      epoch := s.epoch + 1,
      metric_values := s.metric_values ++ [auc],
      saves := s.saves ++ [s.epoch + 1] }
  else
    { s with metric_values := s.metric_values ++ [auc],
             epoch := s.epoch + 1 }

/-- Cell 22's initialisation: `best_metric = -1`, `best_metric_epoch = -1`,
`metric_values = list()`, no epochs run, nothing saved. -/
def initLoopState : LoopState :=
  { best_metric := -1, best_metric_epoch := -1, epoch := 0,
    metric_values := [], saves := [] }

/-- Cell 22's epoch loop applied to the sequence of per-epoch validation
AUC values (the network evaluation itself is external). -/
def runTraining (aucs : List ℚ) : LoopState :=
  aucs.foldl epochStep initLoopState

/-- Cell 22's per-batch loss accumulation: `epoch_loss += loss.item()`
then `step += 1`, starting from `epoch_loss = 0`, `step = 1`. -/
def epochLossStep (acc : ℚ × Nat) (loss : ℚ) : ℚ × Nat :=
  (acc.1 + loss, acc.2 + 1)

/-- Cell 22's reported per-epoch average: after the batch loop,
`epoch_loss /= step` divides the accumulated loss by the final value of
`step`. -/
def reportedEpochLoss (losses : List ℚ) : ℚ :=
  (losses.foldl epochLossStep (0, 1)).1 /
    ((losses.foldl epochLossStep (0, 1)).2 : ℚ)

/-- Cell 18: the `MedNISTDataset` class, grouping image files, labels and
the image transform. -/
structure MedNISTDataset (α β γ : Type) where
  image_files : List α
  labels : List β
  transforms : α → γ

/-- Cell 18: `__len__` returns `len(self.image_files)`. -/
def MedNISTDataset.len (ds : MedNISTDataset α β γ) : Nat :=
  ds.image_files.length

/-- Cell 18: `__getitem__` returns
`(self.transforms(self.image_files[index]), self.labels[index])`; an
out-of-range index on either list raises `IndexError`, modelled as
`none`. -/
def MedNISTDataset.getitem (ds : MedNISTDataset α β γ) (index : Nat) :
    Option (γ × β) :=
  match ds.image_files[index]?, ds.labels[index]? with
  | some f, some l => some (ds.transforms f, l)
  | _, _ => none

/-! ## Helper lemmas -/

/-- Counting in a `replicate` list. -/
theorem countP_replicate (p : α → Bool) (n : Nat) (a : α) :
    (List.replicate n a).countP p = if p a then n else 0 := by
  induction n with
  | zero => simp
  | succ k ih =>
    rw [List.replicate_succ, List.countP_cons, ih]
    by_cases h : p a <;> simp [h]

/-- The sizes of the three routed sets: the validation and test lists
have one entry per tag routed to 1 resp. 2, the training lists catch the
rest; image and label components always have equal length. -/
theorem routeSplit_lengths (dest : τ → Nat) :
    ∀ (ts : List τ) (xs : List α) (ys : List β),
      ts.length = xs.length → ts.length = ys.length →
      ((routeSplit dest ts xs ys).2.1.1.length =
          ts.countP (fun t => dest t == 1) ∧
        (routeSplit dest ts xs ys).2.1.2.length =
          ts.countP (fun t => dest t == 1)) ∧
      ((routeSplit dest ts xs ys).2.2.1.length =
          ts.countP (fun t => dest t == 2) ∧
        (routeSplit dest ts xs ys).2.2.2.length =
          ts.countP (fun t => dest t == 2)) ∧
      ((routeSplit dest ts xs ys).1.1.length =
          ts.countP (fun t => !(dest t == 1) && !(dest t == 2)) ∧
        (routeSplit dest ts xs ys).1.2.length =
          ts.countP (fun t => !(dest t == 1) && !(dest t == 2)))
  | [], xs, ys => by intro h1 h2; simp [routeSplit]
  | t :: ts, [], ys => by intro h1 h2; simp at h1
  | t :: ts, x :: xs, [] => by intro h1 h2; simp at h2
  | t :: ts, x :: xs, y :: ys => by
    intro h1 h2
    simp only [List.length_cons, Nat.succ.injEq] at h1 h2
    obtain ⟨⟨hv1, hv2⟩, ⟨ht1, ht2⟩, ⟨htr1, htr2⟩⟩ :=
      routeSplit_lengths dest ts xs ys h1 h2
    simp only [routeSplit, List.countP_cons]
    by_cases e1 : dest t = 1
    · simp [e1, hv1, hv2, ht1, ht2, htr1, htr2]
    · by_cases e2 : dest t = 2 <;>
        simp [e1, e2, hv1, hv2, ht1, ht2, htr1, htr2]

/-- The three routed sets, zipped into (image, label) pairs and
concatenated, are a permutation of the zipped input: nothing is dropped
or duplicated. -/
theorem routeSplit_perm (dest : τ → Nat) :
    ∀ (ts : List τ) (xs : List α) (ys : List β),
      ts.length = xs.length → ts.length = ys.length →
      List.Perm
        ((routeSplit dest ts xs ys).1.1.zip (routeSplit dest ts xs ys).1.2 ++
          ((routeSplit dest ts xs ys).2.1.1.zip (routeSplit dest ts xs ys).2.1.2 ++
            (routeSplit dest ts xs ys).2.2.1.zip (routeSplit dest ts xs ys).2.2.2))
        (xs.zip ys)
  | [], xs, ys => by
    intro h1 h2
    have hx : xs = [] := List.eq_nil_of_length_eq_zero h1.symm
    subst hx
    simp [routeSplit]
  | t :: ts, [], ys => by intro h1 h2; simp at h1
  | t :: ts, x :: xs, [] => by intro h1 h2; simp at h2
  | t :: ts, x :: xs, y :: ys => by
    intro h1 h2
    simp only [List.length_cons, Nat.succ.injEq] at h1 h2
    have ih := routeSplit_perm dest ts xs ys h1 h2
    simp only [routeSplit, List.zip_cons_cons]
    by_cases e1 : dest t = 1
    · rw [if_pos e1]
      dsimp only
      rw [List.zip_cons_cons, List.cons_append]
      exact List.Perm.trans List.perm_middle (List.Perm.cons (x, y) ih)
    · by_cases e2 : dest t = 2
      · rw [if_neg e1, if_pos e2]
        dsimp only
        rw [List.zip_cons_cons, ← List.append_assoc]
        refine List.Perm.trans List.perm_middle ?_
        rw [List.append_assoc]
        exact List.Perm.cons (x, y) ih
      · rw [if_neg e1, if_neg e2]
        dsimp only
        rw [List.zip_cons_cons, List.cons_append]
        exact List.Perm.cons (x, y) ih

/-- Each routed set, zipped into (image, label) pairs, is a sublist of
the zipped input: order is kept and the i-th image stays paired with its
original label. -/
theorem routeSplit_sublist (dest : τ → Nat) :
    ∀ (ts : List τ) (xs : List α) (ys : List β),
      ts.length = xs.length → ts.length = ys.length →
      ((routeSplit dest ts xs ys).1.1.zip
          (routeSplit dest ts xs ys).1.2).Sublist (xs.zip ys) ∧
      ((routeSplit dest ts xs ys).2.1.1.zip
          (routeSplit dest ts xs ys).2.1.2).Sublist (xs.zip ys) ∧
      ((routeSplit dest ts xs ys).2.2.1.zip
          (routeSplit dest ts xs ys).2.2.2).Sublist (xs.zip ys)
  | [], xs, ys => by intro h1 h2; simp [routeSplit]
  | t :: ts, [], ys => by intro h1 h2; simp at h1
  | t :: ts, x :: xs, [] => by intro h1 h2; simp at h2
  | t :: ts, x :: xs, y :: ys => by
    intro h1 h2
    simp only [List.length_cons, Nat.succ.injEq] at h1 h2
    obtain ⟨ihtr, ihv, ihte⟩ := routeSplit_sublist dest ts xs ys h1 h2
    simp only [routeSplit, List.zip_cons_cons]
    by_cases e1 : dest t = 1
    · exact ⟨by simpa [e1] using ihtr.cons (x, y),
        by simpa [e1] using ihv.cons₂ (x, y),
        by simpa [e1] using ihte.cons (x, y)⟩
    · by_cases e2 : dest t = 2
      · exact ⟨by simpa [e1, e2] using ihtr.cons (x, y),
          by simpa [e1, e2] using ihv.cons (x, y),
          by simpa [e1, e2] using ihte.cons₂ (x, y)⟩
      · exact ⟨by simpa [e1, e2] using ihtr.cons₂ (x, y),
          by simpa [e1, e2] using ihv.cons (x, y),
          by simpa [e1, e2] using ihte.cons (x, y)⟩

/-- Item `n` is appended, still paired with its label, to exactly the
set its tag routes it to. -/
theorem routeSplit_mem (dest : τ → Nat) :
    ∀ (ts : List τ) (xs : List α) (ys : List β),
      ts.length = xs.length → ts.length = ys.length →
      ∀ (n : Nat) (hn : n < ts.length) (hnx : n < xs.length)
        (hny : n < ys.length),
        (xs[n], ys[n]) ∈
          (if dest ts[n] = 1 then
            (routeSplit dest ts xs ys).2.1.1.zip (routeSplit dest ts xs ys).2.1.2
          else if dest ts[n] = 2 then
            (routeSplit dest ts xs ys).2.2.1.zip (routeSplit dest ts xs ys).2.2.2
          else
            (routeSplit dest ts xs ys).1.1.zip (routeSplit dest ts xs ys).1.2)
  | [], xs, ys => by intro h1 h2 n hn; simp at hn
  | t :: ts, [], ys => by intro h1 h2; simp at h1
  | t :: ts, x :: xs, [] => by intro h1 h2; simp at h2
  | t :: ts, x :: xs, y :: ys => by
    intro h1 h2 n hn hnx hny
    simp only [List.length_cons, Nat.succ.injEq] at h1 h2
    cases n with
    | zero =>
      simp only [List.getElem_cons_zero, routeSplit]
      by_cases e1 : dest t = 1
      · simp [e1]
      · by_cases e2 : dest t = 2 <;> simp [e1, e2]
    | succ m =>
      have hm : m < ts.length := Nat.lt_of_succ_lt_succ hn
      have hmx : m < xs.length := Nat.lt_of_succ_lt_succ hnx
      have hmy : m < ys.length := Nat.lt_of_succ_lt_succ hny
      have ih := routeSplit_mem dest ts xs ys h1 h2 m hm hmx hmy
      simp only [List.getElem_cons_succ, routeSplit]
      by_cases f1 : dest ts[m] = 1
      · rw [if_pos f1] at ih ⊢
        by_cases e1 : dest t = 1
        · rw [if_pos e1]
          dsimp only
          rw [List.zip_cons_cons]
          exact List.mem_cons_of_mem _ ih
        · by_cases e2 : dest t = 2
          · rw [if_neg e1, if_pos e2]
            dsimp only
            exact ih
          · rw [if_neg e1, if_neg e2]
            dsimp only
            exact ih
      · by_cases f2 : dest ts[m] = 2
        · rw [if_neg f1, if_pos f2] at ih ⊢
          by_cases e1 : dest t = 1
          · rw [if_pos e1]
            dsimp only
            exact ih
          · by_cases e2 : dest t = 2
            · rw [if_neg e1, if_pos e2]
              dsimp only
              rw [List.zip_cons_cons]
              exact List.mem_cons_of_mem _ ih
            · rw [if_neg e1, if_neg e2]
              dsimp only
              exact ih
        · rw [if_neg f1, if_neg f2] at ih ⊢
          by_cases e1 : dest t = 1
          · rw [if_pos e1]
            dsimp only
            exact ih
          · by_cases e2 : dest t = 2
            · rw [if_neg e1, if_pos e2]
              dsimp only
              exact ih
            · rw [if_neg e1, if_neg e2]
              dsimp only
              rw [List.zip_cons_cons]
              exact List.mem_cons_of_mem _ ih

/-- The three routing counts always sum to the number of tags. -/
theorem routeSplit_countP_total (dest : τ → Nat) (ts : List τ) :
    ts.countP (fun t => dest t == 1) + ts.countP (fun t => dest t == 2) +
      ts.countP (fun t => !(dest t == 1) && !(dest t == 2)) = ts.length := by
  induction ts with
  | nil => simp
  | cons t ts ih =>
    by_cases e1 : dest t = 1 <;> by_cases e2 : dest t = 2 <;>
      simp [List.countP_cons, e1, e2] <;> omega

/-- Size and composition of the unshuffled `groups` array of cell 36. -/
theorem initialGroups_counts (n : Nat) :
    (initialGroups n).length = n ∧
    (initialGroups n).countP (fun t => t == 1) = n / 10 ∧
    (initialGroups n).countP (fun t => t == 2) = n / 10 ∧
    (initialGroups n).countP (fun t => !(t == 1) && !(t == 2)) =
      n - n / 10 - n / 10 := by
  refine ⟨?_, ?_, ?_, ?_⟩ <;>
    simp [initialGroups, List.countP_append, countP_replicate] <;> omega

/-! ## Claims -/

/-- C1: the revised partitioning of cell 36. For every `num_total` and
input lists of that length, and any shuffled `groups` array (a
permutation of `floor(0.1*num_total)` ones, `floor(0.1*num_total)` twos
and zeros elsewhere), distributing item `n` to the set selected by
`groups[n]` yields validation and test sets of exactly
`floor(0.1*num_total)` elements each, a training set with the remaining
`num_total - 2*floor(0.1*num_total)` elements; the three (image, label)
set pairs partition the input (concatenated they are a permutation of
the zipped input, so every index lands in exactly one set, none dropped
or duplicated), each set is an order-preserving sublist of the zipped
input (the i-th image stays paired with its original label), and item
`n` lands in exactly the set selected by `groups[n]`. -/
theorem revisedSplit_partitions {α β : Type} (num_total : Nat)
    (groups : List Nat) (image_files_list : List α) (image_class : List β)
    (hg : List.Perm groups (initialGroups num_total))
    (hx : image_files_list.length = num_total)
    (hy : image_class.length = num_total) :
    ((revisedSplit groups image_files_list image_class).2.1.1.length =
        num_total / 10 ∧
      (revisedSplit groups image_files_list image_class).2.1.2.length =
        num_total / 10) ∧
    ((revisedSplit groups image_files_list image_class).2.2.1.length =
        num_total / 10 ∧
      (revisedSplit groups image_files_list image_class).2.2.2.length =
        num_total / 10) ∧
    ((revisedSplit groups image_files_list image_class).1.1.length =
        num_total - 2 * (num_total / 10) ∧
      (revisedSplit groups image_files_list image_class).1.2.length =
        num_total - 2 * (num_total / 10)) ∧
    List.Perm
      ((revisedSplit groups image_files_list image_class).1.1.zip
          (revisedSplit groups image_files_list image_class).1.2 ++
        ((revisedSplit groups image_files_list image_class).2.1.1.zip
            (revisedSplit groups image_files_list image_class).2.1.2 ++
          (revisedSplit groups image_files_list image_class).2.2.1.zip
            (revisedSplit groups image_files_list image_class).2.2.2))
      (image_files_list.zip image_class) ∧
    ((revisedSplit groups image_files_list image_class).1.1.zip
        (revisedSplit groups image_files_list image_class).1.2).Sublist
      (image_files_list.zip image_class) ∧
    ((revisedSplit groups image_files_list image_class).2.1.1.zip
        (revisedSplit groups image_files_list image_class).2.1.2).Sublist
      (image_files_list.zip image_class) ∧
    ((revisedSplit groups image_files_list image_class).2.2.1.zip
        (revisedSplit groups image_files_list image_class).2.2.2).Sublist
      (image_files_list.zip image_class) ∧
    ∀ (n : Nat) (hn : n < groups.length)
      (hnx : n < image_files_list.length) (hny : n < image_class.length),
      (image_files_list[n], image_class[n]) ∈
        (if groups[n] = 1 then
          (revisedSplit groups image_files_list image_class).2.1.1.zip
            (revisedSplit groups image_files_list image_class).2.1.2
        else if groups[n] = 2 then
          (revisedSplit groups image_files_list image_class).2.2.1.zip
            (revisedSplit groups image_files_list image_class).2.2.2
        else
          (revisedSplit groups image_files_list image_class).1.1.zip
            (revisedSplit groups image_files_list image_class).1.2) := by
  obtain ⟨hlen0, hc1, hc2, hc0⟩ := initialGroups_counts num_total
  have hlen : groups.length = num_total := by
    rw [hg.length_eq, hlen0]
  have h1 : groups.length = image_files_list.length := by rw [hlen, hx]
  have h2 : groups.length = image_class.length := by rw [hlen, hy]
  obtain ⟨⟨lv1, lv2⟩, ⟨lt1, lt2⟩, ⟨ltr1, ltr2⟩⟩ :=
    routeSplit_lengths id groups image_files_list image_class h1 h2
  have e1 : groups.countP (fun t => id t == 1) = num_total / 10 := by
    rw [hg.countP_eq]
    simpa using hc1
  have e2 : groups.countP (fun t => id t == 2) = num_total / 10 := by
    rw [hg.countP_eq]
    simpa using hc2
  have e0 : groups.countP (fun t => !(id t == 1) && !(id t == 2)) =
      num_total - 2 * (num_total / 10) := by
    rw [hg.countP_eq]
    have := hc0
    simp only [id_eq]
    omega
  refine ⟨⟨?_, ?_⟩, ⟨?_, ?_⟩, ⟨?_, ?_⟩, ?_, ?_, ?_, ?_, ?_⟩
  · rw [revisedSplit, lv1, e1]
  · rw [revisedSplit, lv2, e1]
  · rw [revisedSplit, lt1, e2]
  · rw [revisedSplit, lt2, e2]
  · rw [revisedSplit, ltr1, e0]
  · rw [revisedSplit, ltr2, e0]
  · exact routeSplit_perm id groups image_files_list image_class h1 h2
  · exact (routeSplit_sublist id groups image_files_list image_class h1 h2).1
  · exact (routeSplit_sublist id groups image_files_list image_class h1 h2).2.1
  · exact (routeSplit_sublist id groups image_files_list image_class h1 h2).2.2
  · intro n hn hnx hny
    simpa using routeSplit_mem id groups image_files_list image_class h1 h2 n hn hnx hny

/-- C1 witness: a concrete run with `num_total = 12`: one validation
slot, one test slot, shuffled groups `[0,0,2,0,0,1,0,0,0,0,0,0]`. -/
theorem revisedSplit_partitions_witness :
    List.Perm [0, 0, 2, 0, 0, 1, 0, 0, 0, 0, 0, 0] (initialGroups 12) ∧
    ((revisedSplit [0, 0, 2, 0, 0, 1, 0, 0, 0, 0, 0, 0]
        ["f0", "f1", "f2", "f3", "f4", "f5", "f6", "f7", "f8", "f9", "f10", "f11"]
        [0, 0, 0, 1, 1, 1, 2, 2, 2, 3, 3, 3]).2.1.1.length = 12 / 10 ∧
      (revisedSplit [0, 0, 2, 0, 0, 1, 0, 0, 0, 0, 0, 0]
        ["f0", "f1", "f2", "f3", "f4", "f5", "f6", "f7", "f8", "f9", "f10", "f11"]
        [0, 0, 0, 1, 1, 1, 2, 2, 2, 3, 3, 3]).2.1.2.length = 12 / 10) :=
  ⟨by decide,
    ((revisedSplit_partitions 12 [0, 0, 2, 0, 0, 1, 0, 0, 0, 0, 0, 0]
      ["f0", "f1", "f2", "f3", "f4", "f5", "f6", "f7", "f8", "f9", "f10", "f11"]
      [0, 0, 0, 1, 1, 1, 2, 2, 2, 3, 3, 3]
      (by decide) (by decide) (by decide)).1)⟩

/-- C2: the revised partitioning is deterministic in the seed and
independent of the global numpy random state: the shuffle is driven by
the private `np.random.RandomState(dataset_seed)` (any deterministic
function `shuffle` of the seed), so two executions under different
global states — in particular two executions under the same one —
produce identical train/val/test lists. -/
theorem revisedPartition_deterministic {α β : Type}
    (shuffle : Nat → List Nat → List Nat) (g1 g2 : Nat) (seed : Nat)
    (image_files_list : List α) (image_class : List β) :
    revisedPartition shuffle g1 seed image_files_list image_class =
      revisedPartition shuffle g2 seed image_files_list image_class := rfl

/-- C3: the manual split of cell 14. One draw classifies each item —
validation iff `rann < 0.1`, test iff `0.1 ≤ rann < 0.2`, training iff
`0.2 ≤ rann` — and each item is placed in exactly one set: concatenated,
the zipped sets are a permutation of the zipped input, each set is an
order-preserving sublist of it (file paths stay paired with their
original class labels), the set sizes sum to the input size, and item
`n` lands in the set determined by its draw. -/
theorem manualSplit_partitions {α β : Type} (draws : List ℚ)
    (image_files_list : List α) (image_class : List β)
    (hx : draws.length = image_files_list.length)
    (hy : draws.length = image_class.length)
    (hr : ∀ r ∈ draws, 0 ≤ r ∧ r < 1) :
    (∀ r : ℚ, (drawDest r = 1 ↔ r < 1/10) ∧
      (drawDest r = 2 ↔ 1/10 ≤ r ∧ r < 1/5) ∧
      (drawDest r = 0 ↔ 1/5 ≤ r)) ∧
    List.Perm
      ((manualSplit draws image_files_list image_class).1.1.zip
          (manualSplit draws image_files_list image_class).1.2 ++
        ((manualSplit draws image_files_list image_class).2.1.1.zip
            (manualSplit draws image_files_list image_class).2.1.2 ++
          (manualSplit draws image_files_list image_class).2.2.1.zip
            (manualSplit draws image_files_list image_class).2.2.2))
      (image_files_list.zip image_class) ∧
    ((manualSplit draws image_files_list image_class).1.1.zip
        (manualSplit draws image_files_list image_class).1.2).Sublist
      (image_files_list.zip image_class) ∧
    ((manualSplit draws image_files_list image_class).2.1.1.zip
        (manualSplit draws image_files_list image_class).2.1.2).Sublist
      (image_files_list.zip image_class) ∧
    ((manualSplit draws image_files_list image_class).2.2.1.zip
        (manualSplit draws image_files_list image_class).2.2.2).Sublist
      (image_files_list.zip image_class) ∧
    ((manualSplit draws image_files_list image_class).1.1.length +
        (manualSplit draws image_files_list image_class).2.1.1.length +
        (manualSplit draws image_files_list image_class).2.2.1.length =
      image_files_list.length) ∧
    ∀ (n : Nat) (hn : n < draws.length)
      (hnx : n < image_files_list.length) (hny : n < image_class.length),
      (image_files_list[n], image_class[n]) ∈
        (if draws[n] < 1/10 then
          (manualSplit draws image_files_list image_class).2.1.1.zip
            (manualSplit draws image_files_list image_class).2.1.2
        else if draws[n] < 1/10 + 1/10 then
          (manualSplit draws image_files_list image_class).2.2.1.zip
            (manualSplit draws image_files_list image_class).2.2.2
        else
          (manualSplit draws image_files_list image_class).1.1.zip
            (manualSplit draws image_files_list image_class).1.2) := by
  refine ⟨?_, ?_, ?_, ?_, ?_, ?_, ?_⟩
  · intro r
    unfold drawDest
    by_cases c1 : r < 1/10
    · rw [if_pos c1]
      refine ⟨⟨fun _ => c1, fun _ => rfl⟩, ?_, ?_⟩
      · exact iff_of_false (by omega) (fun h => absurd c1 (not_lt.mpr h.1))
      · exact iff_of_false (by omega) (fun h => absurd c1 (not_lt.mpr (by linarith)))
    · by_cases c2 : r < 1/10 + 1/10
      · rw [if_neg c1, if_pos c2]
        refine ⟨iff_of_false (by omega) c1, ?_, ?_⟩
        · exact iff_of_true rfl ⟨le_of_not_lt c1, by linarith⟩
        · exact iff_of_false (by omega) (fun h => absurd c2 (not_lt.mpr (by linarith)))
      · rw [if_neg c1, if_neg c2]
        have hc2 : 1/10 + 1/10 ≤ r := le_of_not_lt c2
        refine ⟨iff_of_false (by omega) c1, ?_, ?_⟩
        · exact iff_of_false (by omega) (fun h => absurd h.2 (not_lt.mpr (by linarith)))
        · exact iff_of_true rfl (by linarith)
  · exact routeSplit_perm drawDest draws image_files_list image_class hx hy
  · exact (routeSplit_sublist drawDest draws image_files_list image_class hx hy).1
  · exact (routeSplit_sublist drawDest draws image_files_list image_class hx hy).2.1
  · exact (routeSplit_sublist drawDest draws image_files_list image_class hx hy).2.2
  · obtain ⟨⟨lv1, _⟩, ⟨lt1, _⟩, ⟨ltr1, _⟩⟩ :=
      routeSplit_lengths drawDest draws image_files_list image_class hx hy
    have htot := routeSplit_countP_total drawDest draws
    rw [manualSplit, ltr1, lv1, lt1, ← hx]
    omega
  · intro n hn hnx hny
    have hm := routeSplit_mem drawDest draws image_files_list image_class
      hx hy n hn hnx hny
    by_cases c1 : draws[n] < 1/10
    · rw [if_pos c1]
      have e1 : drawDest draws[n] = 1 := by unfold drawDest; rw [if_pos c1]
      rw [if_pos e1] at hm
      exact hm
    · by_cases c2 : draws[n] < 1/10 + 1/10
      · rw [if_neg c1, if_pos c2]
        have e2 : drawDest draws[n] = 2 := by
          unfold drawDest; rw [if_neg c1, if_pos c2]
        have e1 : ¬ drawDest draws[n] = 1 := by rw [e2]; omega
        rw [if_neg e1, if_pos e2] at hm
        exact hm
      · rw [if_neg c1, if_neg c2]
        have e0 : drawDest draws[n] = 0 := by
          unfold drawDest; rw [if_neg c1, if_neg c2]
        have e1 : ¬ drawDest draws[n] = 1 := by rw [e0]; omega
        have e2 : ¬ drawDest draws[n] = 2 := by rw [e0]; omega
        rw [if_neg e1, if_neg e2] at hm
        exact hm

/-- C3 witness: a concrete run on four items with draws
`[0.05, 0.15, 0.5, 0.95]`. -/
theorem manualSplit_partitions_witness :
    (∀ r ∈ ([5/100, 15/100, 1/2, 95/100] : List ℚ), 0 ≤ r ∧ r < 1) ∧
    ((manualSplit [5/100, 15/100, 1/2, 95/100]
        ["a", "b", "c", "d"] [0, 1, 2, 3]).1.1.length +
      (manualSplit [5/100, 15/100, 1/2, 95/100]
        ["a", "b", "c", "d"] [0, 1, 2, 3]).2.1.1.length +
      (manualSplit [5/100, 15/100, 1/2, 95/100]
        ["a", "b", "c", "d"] [0, 1, 2, 3]).2.2.1.length =
      (["a", "b", "c", "d"] : List String).length) :=
  ⟨by intro r hr; fin_cases hr <;> constructor <;> norm_num,
    (manualSplit_partitions [5/100, 15/100, 1/2, 95/100]
      ["a", "b", "c", "d"] [0, 1, 2, 3] (by decide) (by decide)
      (by intro r hr; fin_cases hr <;> constructor <;> norm_num)).2.2.2.2.2.1⟩

/-- The epoch counter advances by one each epoch, in both branches. -/
theorem epochStep_epoch (s : LoopState) (a : ℚ) :
    (epochStep s a).epoch = s.epoch + 1 := by
  unfold epochStep
  by_cases h : a > s.best_metric
  · rw [if_pos h]
  · rw [if_neg h]

/-- One epoch step turns `best_metric` into the max of itself and the
epoch's AUC. -/
theorem epochStep_best (s : LoopState) (a : ℚ) :
    (epochStep s a).best_metric = max s.best_metric a := by
  unfold epochStep
  by_cases h : a > s.best_metric
  · rw [if_pos h]
    exact (max_eq_right (le_of_lt h)).symm
  · rw [if_neg h]
    exact (max_eq_left (le_of_not_lt h)).symm

/-- Saved-epoch numbers never exceed the current epoch counter. -/
theorem epochStep_saves_le (s : LoopState) (a : ℚ)
    (hs : ∀ m ∈ s.saves, m ≤ s.epoch) :
    ∀ m ∈ (epochStep s a).saves, m ≤ (epochStep s a).epoch := by
  intro m hm
  rw [epochStep_epoch]
  unfold epochStep at hm
  by_cases h : a > s.best_metric
  · rw [if_pos h] at hm
    rcases List.mem_append.mp hm with h1 | h1
    · exact le_trans (hs m h1) (Nat.le_succ _)
    · have : m = s.epoch + 1 := by simpa using h1
      omega
  · rw [if_neg h] at hm
    exact le_trans (hs m hm) (Nat.le_succ _)

/-- Over a whole run, `best_metric` is the running maximum of the AUCs. -/
theorem foldl_epochStep_best (l : List ℚ) : ∀ s : LoopState,
    (List.foldl epochStep s l).best_metric = l.foldl max s.best_metric := by
  induction l with
  | nil => intro s; rfl
  | cons a l ih =>
    intro s
    rw [List.foldl_cons, List.foldl_cons, ih, epochStep_best]

/-- Over a whole run, every epoch's AUC is appended to `metric_values`. -/
theorem foldl_epochStep_metrics (l : List ℚ) : ∀ s : LoopState,
    (List.foldl epochStep s l).metric_values = s.metric_values ++ l := by
  induction l with
  | nil => intro s; simp
  | cons a l ih =>
    intro s
    rw [List.foldl_cons, ih]
    unfold epochStep
    by_cases h : a > s.best_metric
    · rw [if_pos h]
      simp
    · rw [if_neg h]
      simp

/-- Save records for epochs already past are never altered later. -/
theorem foldl_epochStep_saves_stable (l : List ℚ) : ∀ (s : LoopState) (m : Nat),
    m ≤ s.epoch →
    (m ∈ (List.foldl epochStep s l).saves ↔ m ∈ s.saves) := by
  induction l with
  | nil => intro s m _; exact Iff.rfl
  | cons a l ih =>
    intro s m hm
    rw [List.foldl_cons]
    have hm2 : m ≤ (epochStep s a).epoch := by
      rw [epochStep_epoch]; omega
    rw [ih (epochStep s a) m hm2]
    unfold epochStep
    by_cases h : a > s.best_metric
    · rw [if_pos h]
      constructor
      · intro hmem
        rcases List.mem_append.mp hmem with h1 | h1
        · exact h1
        · have : m = s.epoch + 1 := by simpa using h1
          omega
      · intro hmem
        exact List.mem_append.mpr (Or.inl hmem)
    · rw [if_neg h]

/-- The model is saved at epoch `e + 1` iff that epoch's AUC strictly
exceeds the best metric accumulated over the first `e` epochs. -/
theorem foldl_epochStep_saves_mem (l : List ℚ) : ∀ (s : LoopState) (e : Nat)
    (he : e < l.length), (∀ m ∈ s.saves, m ≤ s.epoch) →
    ((s.epoch + e + 1) ∈ (List.foldl epochStep s l).saves ↔
      (List.foldl epochStep s (l.take e)).best_metric < l[e]) := by
  induction l with
  | nil => intro s e he; simp at he
  | cons a l ih =>
    intro s e he hs
    cases e with
    | zero =>
      rw [List.foldl_cons]
      have hst : s.epoch + 0 + 1 ≤ (epochStep s a).epoch := by
        rw [epochStep_epoch]
      rw [foldl_epochStep_saves_stable l (epochStep s a) (s.epoch + 0 + 1) hst]
      simp only [List.take_zero, List.foldl_nil, List.getElem_cons_zero]
      unfold epochStep
      by_cases h : a > s.best_metric
      · rw [if_pos h]
        refine iff_of_true ?_ h
        exact List.mem_append.mpr (Or.inr (by simp))
      · rw [if_neg h]
        refine iff_of_false ?_ h
        intro hmem
        have := hs _ hmem
        omega
    | succ e =>
      rw [List.foldl_cons]
      have hs2 := epochStep_saves_le s a hs
      have he2 : e < l.length := Nat.lt_of_succ_lt_succ he
      have hepeq := epochStep_epoch s a
      have hstep := ih (epochStep s a) e he2 hs2
      rw [hepeq] at hstep
      have hidx : s.epoch + (e + 1) + 1 = s.epoch + 1 + e + 1 := by omega
      rw [hidx, List.take_succ_cons, List.foldl_cons, List.getElem_cons_succ]
      exact hstep

/-- Running maxima over longer prefixes never decrease. -/
theorem foldl_max_take_le (l : List ℚ) (b : ℚ) (k : Nat) :
    (l.take k).foldl max b ≤ (l.take (k + 1)).foldl max b := by
  rw [List.take_succ, List.foldl_append]
  cases h : l[k]? with
  | none => simp
  | some x => simp [le_max_left]

/-- Where the final `best_metric` and `best_metric_epoch` come from:
either no epoch ever improved on the initial values, or they record the
first epoch attaining the final (maximal) metric. -/
theorem foldl_epochStep_bestEpoch (l : List ℚ) : ∀ s : LoopState,
    ((List.foldl epochStep s l).best_metric = s.best_metric ∧
      (List.foldl epochStep s l).best_metric_epoch = s.best_metric_epoch ∧
      ∀ a ∈ l, a ≤ s.best_metric) ∨
    ∃ k, ∃ hk : k < l.length,
      (List.foldl epochStep s l).best_metric_epoch = (s.epoch : Int) + k + 1 ∧
      l[k] = (List.foldl epochStep s l).best_metric ∧
      s.best_metric < (List.foldl epochStep s l).best_metric ∧
      (∀ a ∈ l, a ≤ (List.foldl epochStep s l).best_metric) ∧
      ∀ j, j < k → ∀ hj : j < l.length,
        l[j] < (List.foldl epochStep s l).best_metric := by
  induction l with
  | nil => intro s; left; exact ⟨rfl, rfl, by simp⟩
  | cons a l ih =>
    intro s
    rw [List.foldl_cons]
    by_cases h : a > s.best_metric
    · have hb : (epochStep s a).best_metric = a := by
        rw [epochStep_best]; exact max_eq_right (le_of_lt h)
      have hbe : (epochStep s a).best_metric_epoch = (s.epoch : Int) + 1 := by
        unfold epochStep; rw [if_pos h]
      have hep : (epochStep s a).epoch = s.epoch + 1 := epochStep_epoch s a
      rcases ih (epochStep s a) with ⟨ihb, ihe, ihall⟩ | ⟨k, hk, ihbe, ihval, ihlt, ihall, ihfirst⟩
      · right
        refine ⟨0, by simp, ?_, ?_, ?_, ?_, ?_⟩
        · rw [ihe, hbe]; push_cast; ring
        · rw [List.getElem_cons_zero, ihb, hb]
        · rw [ihb, hb]; exact h
        · intro x hx
          rw [ihb, hb]
          rcases List.mem_cons.mp hx with rfl | hx
          · exact le_refl x
          · exact hb ▸ ihall x hx
        · intro j hj; omega
      · right
        refine ⟨k + 1, by simpa using Nat.succ_lt_succ hk, ?_, ?_, ?_, ?_, ?_⟩
        · rw [ihbe, hep]; push_cast; ring
        · rw [List.getElem_cons_succ]; exact ihval
        · calc s.best_metric < a := h
            _ = (epochStep s a).best_metric := hb.symm
            _ < _ := ihlt
        · intro x hx
          rcases List.mem_cons.mp hx with rfl | hx
          · have h2 := ihlt
            rw [hb] at h2
            exact le_of_lt h2
          · exact ihall x hx
        · intro j hj hj2
          cases j with
          | zero =>
            rw [List.getElem_cons_zero]
            have h2 := ihlt
            rw [hb] at h2
            exact h2
          | succ j =>
            rw [List.getElem_cons_succ]
            exact ihfirst j (Nat.lt_of_succ_lt_succ hj) (Nat.lt_of_succ_lt_succ hj2)
    · have hb : (epochStep s a).best_metric = s.best_metric := by
        rw [epochStep_best]; exact max_eq_left (le_of_not_lt h)
      have hbe : (epochStep s a).best_metric_epoch = s.best_metric_epoch := by
        unfold epochStep; rw [if_neg h]
      have hep : (epochStep s a).epoch = s.epoch + 1 := epochStep_epoch s a
      rcases ih (epochStep s a) with ⟨ihb, ihe, ihall⟩ | ⟨k, hk, ihbe, ihval, ihlt, ihall, ihfirst⟩
      · left
        refine ⟨by rw [ihb, hb], by rw [ihe, hbe], ?_⟩
        intro x hx
        rcases List.mem_cons.mp hx with rfl | hx
        · exact le_of_not_lt h
        · exact hb ▸ ihall x hx
      · right
        refine ⟨k + 1, by simpa using Nat.succ_lt_succ hk, ?_, ?_, ?_, ?_, ?_⟩
        · rw [ihbe, hep]; push_cast; ring
        · rw [List.getElem_cons_succ]; exact ihval
        · have h2 := ihlt
          rw [hb] at h2
          exact h2
        · intro x hx
          rcases List.mem_cons.mp hx with rfl | hx
          · have h2 := ihlt
            rw [hb] at h2
            exact le_of_lt (lt_of_le_of_lt (le_of_not_lt h) h2)
          · exact ihall x hx
        · intro j hj hj2
          cases j with
          | zero =>
            rw [List.getElem_cons_zero]
            have h2 := ihlt
            rw [hb] at h2
            exact lt_of_le_of_lt (le_of_not_lt h) h2
          | succ j =>
            rw [List.getElem_cons_succ]
            exact ihfirst j (Nat.lt_of_succ_lt_succ hj) (Nat.lt_of_succ_lt_succ hj2)

/-- C4: checkpointing in the hand-rolled training loop of cell 22.
Every epoch's AUC is recorded in `metric_values`; the weights are saved
at epoch `e + 1` iff that epoch's AUC strictly exceeds the best AUC seen
so far (initially `-1`); `best_metric` is non-decreasing across epochs;
when no epoch ran, `best_metric` and `best_metric_epoch` keep their
initial `-1`; otherwise `best_metric_epoch` is the 1-based index of the
first epoch attaining the final `best_metric`, which bounds every
per-epoch AUC from above (it is their maximum). -/
theorem trainLoop_checkpointing (aucs : List ℚ) (hpos : ∀ a ∈ aucs, 0 ≤ a) :
    (runTraining aucs).metric_values = aucs ∧
    (∀ (e : Nat) (he : e < aucs.length),
      ((e + 1) ∈ (runTraining aucs).saves ↔
        (runTraining (aucs.take e)).best_metric < aucs[e])) ∧
    (∀ k : Nat, (runTraining (aucs.take k)).best_metric ≤
      (runTraining (aucs.take (k + 1))).best_metric) ∧
    (aucs = [] → (runTraining aucs).best_metric = -1 ∧
      (runTraining aucs).best_metric_epoch = -1) ∧
    (aucs ≠ [] → ∃ k, ∃ hk : k < aucs.length,
      (runTraining aucs).best_metric_epoch = (k : Int) + 1 ∧
      aucs[k] = (runTraining aucs).best_metric ∧
      (∀ a ∈ aucs, a ≤ (runTraining aucs).best_metric) ∧
      ∀ j, j < k → ∀ hj : j < aucs.length,
        aucs[j] < (runTraining aucs).best_metric) := by
  refine ⟨?_, ?_, ?_, ?_, ?_⟩
  · rw [runTraining, foldl_epochStep_metrics]
    rfl
  · intro e he
    have := foldl_epochStep_saves_mem aucs initLoopState e he (by simp [initLoopState])
    simpa [runTraining, initLoopState] using this
  · intro k
    rw [runTraining, runTraining, foldl_epochStep_best, foldl_epochStep_best]
    exact foldl_max_take_le aucs initLoopState.best_metric k
  · intro h
    subst h
    exact ⟨rfl, rfl⟩
  · intro hne
    rcases foldl_epochStep_bestEpoch aucs initLoopState with ⟨_, _, hall⟩ | ⟨k, hk, hbe, hval, _, hall, hfirst⟩
    · obtain ⟨a, rest, rfl⟩ := List.exists_cons_of_ne_nil hne
      have h1 := hall a (List.mem_cons_self a rest)
      have h2 := hpos a (List.mem_cons_self a rest)
      have : (0 : ℚ) ≤ -1 := le_trans h2 h1
      norm_num at this
    · refine ⟨k, hk, ?_, hval, hall, hfirst⟩
      show (List.foldl epochStep initLoopState aucs).best_metric_epoch = (k : Int) + 1
      rw [hbe]
      simp [initLoopState]

/-- C4 witness: a concrete run on AUCs `[1/2, 1/4, 3/4]`. -/
theorem trainLoop_checkpointing_witness :
    (∀ a ∈ ([1/2, 1/4, 3/4] : List ℚ), 0 ≤ a) ∧
    (runTraining [1/2, 1/4, 3/4]).metric_values = [1/2, 1/4, 3/4] :=
  ⟨by intro a ha; fin_cases ha <;> norm_num,
    (trainLoop_checkpointing [1/2, 1/4, 3/4]
      (by intro a ha; fin_cases ha <;> norm_num)).1⟩

/-- C5: cell 4 selects the data directory from the environment: when
`MONAI_DATA_DIRECTORY` is set, `root_dir` is exactly its value; when it
is unset, `root_dir` is the freshly created temporary directory; and no
other environment variable influences the choice (any environment
agreeing on `MONAI_DATA_DIRECTORY` yields the same `root_dir`). -/
theorem rootDir_env_selection (env : String → Option String) (tmp : String) :
    (∀ d, env "MONAI_DATA_DIRECTORY" = some d → rootDir env tmp = d) ∧
    (env "MONAI_DATA_DIRECTORY" = none → rootDir env tmp = tmp) ∧
    (∀ env2 : String → Option String,
      env2 "MONAI_DATA_DIRECTORY" = env "MONAI_DATA_DIRECTORY" →
      rootDir env2 tmp = rootDir env tmp) := by
  refine ⟨?_, ?_, ?_⟩
  · intro d hd
    unfold rootDir
    rw [hd]
  · intro hd
    unfold rootDir
    rw [hd]
  · intro env2 h
    unfold rootDir
    rw [h]

/-- C5 witness: a concrete environment with the variable set. -/
theorem rootDir_env_selection_witness :
    (fun k => if k == "MONAI_DATA_DIRECTORY" then some "/data" else none :
        String → Option String) "MONAI_DATA_DIRECTORY" = some "/data" ∧
    rootDir (fun k => if k == "MONAI_DATA_DIRECTORY" then some "/data" else none)
      "/tmp/tmpabc123" = "/data" :=
  ⟨rfl,
    (rootDir_env_selection
      (fun k => if k == "MONAI_DATA_DIRECTORY" then some "/data" else none)
      "/tmp/tmpabc123").1 "/data" rfl⟩

/-- C6: cell 6's guard and the absence of error handling.
`download_and_extract` is skipped — the file system unchanged — exactly
when the MedNIST data directory already exists; otherwise the cell's
result is whatever `download_and_extract` produces, so any failure it
raises propagates unhandled. -/
theorem downloadCell_guard {ε : Type} (fs : FS) (data_dir : String)
    (download : FS → Except ε FS) :
    (fs data_dir = true → downloadCell fs data_dir download = Except.ok fs) ∧
    (fs data_dir = false → downloadCell fs data_dir download = download fs) ∧
    (∀ e, fs data_dir = false → download fs = Except.error e →
      downloadCell fs data_dir download = Except.error e) := by
  refine ⟨?_, ?_, ?_⟩
  · intro h
    unfold downloadCell
    rw [h]
    rfl
  · intro h
    unfold downloadCell
    rw [h]
    rfl
  · intro e h he
    unfold downloadCell
    rw [h]
    exact he

/-- C6 witness: a run where the data directory exists, so the download
is skipped and the file system is returned untouched. -/
theorem downloadCell_guard_witness :
    (fun p => p == "/data/MedNIST" : FS) "/data/MedNIST" = true ∧
    downloadCell (fun p => p == "/data/MedNIST") "/data/MedNIST"
      (fun _ => Except.error "download failed") =
      Except.ok (fun p => p == "/data/MedNIST") :=
  ⟨rfl,
    (downloadCell_guard (ε := String) (fun p => p == "/data/MedNIST")
      "/data/MedNIST" (fun _ => Except.error "download failed")).1 rfl⟩

/-- Cell 22's loss accumulator: after folding over the batch losses,
`epoch_loss` is their sum and `step` is one more than their number. -/
theorem foldl_epochLossStep (l : List ℚ) : ∀ (a : ℚ) (s : Nat),
    l.foldl epochLossStep (a, s) = (a + l.sum, s + l.length) := by
  induction l with
  | nil => intro a s; simp
  | cons x l ih =>
    intro a s
    rw [List.foldl_cons]
    show l.foldl epochLossStep (a + x, s + 1) = _
    rw [ih]
    simp only [List.sum_cons, List.length_cons, Prod.mk.injEq]
    constructor
    · ring
    · omega

/-- C8: the reported per-epoch average loss of cell 22 divides the loss
sum by the number of batches plus one, because `step` starts at 1 and is
incremented once per batch before `epoch_loss /= step` runs; for a
non-empty epoch with positive total loss the reported value is strictly
below the true mean. -/
theorem reportedEpochLoss_offByOne (losses : List ℚ) :
    reportedEpochLoss losses = losses.sum / ((losses.length : ℚ) + 1) ∧
    (losses ≠ [] → 0 < losses.sum →
      reportedEpochLoss losses < losses.sum / (losses.length : ℚ)) := by
  have h1 : reportedEpochLoss losses =
      losses.sum / ((losses.length : ℚ) + 1) := by
    rw [reportedEpochLoss, foldl_epochLossStep]
    push_cast
    ring_nf
  refine ⟨h1, ?_⟩
  intro hne hpos
  rw [h1]
  have hlen : 0 < (losses.length : ℚ) := by
    have : 0 < losses.length := List.length_pos.mpr hne
    exact_mod_cast this
  exact div_lt_div_of_pos_left hpos hlen (by linarith)

/-- C8 witness: two batches with losses 2 and 4: the code reports
6/3 = 2 instead of the true mean 3. -/
theorem reportedEpochLoss_offByOne_witness :
    ([2, 4] : List ℚ) ≠ [] ∧ 0 < ([2, 4] : List ℚ).sum ∧
    reportedEpochLoss [2, 4] < ([2, 4] : List ℚ).sum /
      ((([2, 4] : List ℚ).length : ℚ)) :=
  ⟨by simp, by norm_num [List.sum_cons, List.sum_nil],
    (reportedEpochLoss_offByOne [2, 4]).2 (by simp)
      (by norm_num [List.sum_cons, List.sum_nil])⟩

/-- C9: cell 40 deletes the data tree iff `MONAI_DATA_DIRECTORY` was
unset at startup (so `root_dir` was the temporary directory): in that
case `root_dir` and everything under it is removed and no other path is
touched; when the variable was set, the cleanup changes nothing — the
user-supplied directory is never deleted or modified. -/
theorem cleanup_frame (env : String → Option String) (tmp : String) (fs : FS) :
    (env "MONAI_DATA_DIRECTORY" = none →
      cleanup (env "MONAI_DATA_DIRECTORY") (rootDir env tmp) fs
          (rootDir env tmp) = false ∧
      (∀ p, underDir (rootDir env tmp) p = true →
        cleanup (env "MONAI_DATA_DIRECTORY") (rootDir env tmp) fs p = false) ∧
      (∀ p, underDir (rootDir env tmp) p = false →
        cleanup (env "MONAI_DATA_DIRECTORY") (rootDir env tmp) fs p = fs p)) ∧
    (∀ d, env "MONAI_DATA_DIRECTORY" = some d →
      cleanup (env "MONAI_DATA_DIRECTORY") (rootDir env tmp) fs = fs ∧
      rootDir env tmp = d) := by
  constructor
  · intro hnone
    rw [hnone]
    refine ⟨?_, ?_, ?_⟩
    · show (if underDir (rootDir env tmp) (rootDir env tmp) then false
        else fs (rootDir env tmp)) = false
      have : underDir (rootDir env tmp) (rootDir env tmp) = true := by
        simp [underDir]
      rw [this]
      rfl
    · intro p hp
      show (if underDir (rootDir env tmp) p then false else fs p) = false
      rw [hp]
      rfl
    · intro p hp
      show (if underDir (rootDir env tmp) p then false else fs p) = fs p
      rw [hp]
      rfl
  · intro d hd
    rw [hd]
    refine ⟨rfl, ?_⟩
    unfold rootDir
    rw [hd]

/-- C9 witness: with the variable unset, the temporary root itself is
gone after cleanup. -/
theorem cleanup_frame_witness :
    ((fun _ => none : String → Option String) "MONAI_DATA_DIRECTORY" =
      none) ∧
    cleanup ((fun _ => none : String → Option String) "MONAI_DATA_DIRECTORY")
      (rootDir (fun _ => none) "/tmp/tmpabc123") (fun _ => true)
      (rootDir (fun _ => none) "/tmp/tmpabc123") = false :=
  ⟨rfl, ((cleanup_frame (fun _ => none) "/tmp/tmpabc123" (fun _ => true)).1
    rfl).1⟩

/-- C10: `MedNISTDataset` validates nothing: `__len__` is the image-file
count no matter what `labels` is; `__getitem__` yields the transformed
image paired with the label when the index is in range of both lists,
and fails (`none`, a Python `IndexError`) as soon as the index reaches
the length of either list — in particular, with `labels` shorter than
`image_files`, `__len__` still reports the full image count while
`__getitem__` fails from `len(labels)` on. -/
theorem medNISTDataset_no_validation {α β γ : Type}
    (ds : MedNISTDataset α β γ) (index : Nat) :
    ds.len = ds.image_files.length ∧
    (∀ labels2 : List β,
      (MedNISTDataset.mk ds.image_files labels2 ds.transforms).len = ds.len) ∧
    (∀ (h1 : index < ds.image_files.length) (h2 : index < ds.labels.length),
      ds.getitem index =
        some (ds.transforms (ds.image_files.get ⟨index, h1⟩),
          ds.labels.get ⟨index, h2⟩)) ∧
    (ds.labels.length ≤ index → ds.getitem index = none) ∧
    (ds.image_files.length ≤ index → ds.getitem index = none) := by
  refine ⟨rfl, fun _ => rfl, ?_, ?_, ?_⟩
  · intro h1 h2
    unfold MedNISTDataset.getitem
    rw [List.getElem?_eq_getElem h1, List.getElem?_eq_getElem h2]
    rfl
  · intro h
    unfold MedNISTDataset.getitem
    rw [List.getElem?_eq_none h]
    cases ds.image_files[index]? <;> rfl
  · intro h
    unfold MedNISTDataset.getitem
    rw [List.getElem?_eq_none h]

/-- C10 witness: two image files but a single label: the length still
reports 2, and item 1 fails. -/
theorem medNISTDataset_no_validation_witness :
    (MedNISTDataset.mk ["i0.png", "i1.png"] [5] (fun s => s) :
      MedNISTDataset String Nat String).len = 2 ∧
    ((MedNISTDataset.mk ["i0.png", "i1.png"] [5] (fun s => s) :
        MedNISTDataset String Nat String).labels.length ≤ 1 ∧
      (MedNISTDataset.mk ["i0.png", "i1.png"] [5] (fun s => s) :
        MedNISTDataset String Nat String).getitem 1 = none) :=
  ⟨rfl,
    by decide,
    (medNISTDataset_no_validation
      (MedNISTDataset.mk ["i0.png", "i1.png"] [5] (fun s => s)) 1).2.2.2.1
      (by decide)⟩

/-- Cell 10's accumulation loop emits one file entry and one label entry
per file, over all classes. -/
theorem buildLists_length (l : List (List String)) : ∀ i : Nat,
    (buildLists i l).1.length = (l.map List.length).sum ∧
    (buildLists i l).2.length = (l.map List.length).sum := by
  induction l with
  | nil => intro i; simp [buildLists]
  | cons fs rest ih =>
    intro i
    obtain ⟨h1, h2⟩ := ih (i + 1)
    simp [buildLists, h1, h2]

/-- Every label the loop emits is the running class index plus an offset
below the number of remaining classes. -/
theorem buildLists_class_mem (l : List (List String)) : ∀ i : Nat,
    ∀ j ∈ (buildLists i l).2, ∃ k, k < l.length ∧ j = i + k := by
  induction l with
  | nil => intro i j hj; simp [buildLists] at hj
  | cons fs rest ih =>
    intro i j hj
    simp only [buildLists] at hj
    rcases List.mem_append.mp hj with hj | hj
    · have hj2 : j = i := List.eq_of_mem_replicate hj
      exact ⟨0, by simp, by omega⟩
    · obtain ⟨k, hk, hjk⟩ := ih (i + 1) j hj
      exact ⟨k + 1, by simpa using Nat.succ_lt_succ hk, by omega⟩

/-- Every (file, label) pair the loop emits pairs a file of class list
`k` with label `i + k`. -/
theorem buildLists_zip_mem (l : List (List String)) : ∀ i : Nat,
    ∀ a b, (a, b) ∈ (buildLists i l).1.zip (buildLists i l).2 →
      ∃ k, ∃ hk : k < l.length, b = i + k ∧ a ∈ l.get ⟨k, hk⟩ := by
  induction l with
  | nil => intro i a b hp; simp [buildLists] at hp
  | cons fs rest ih =>
    intro i a b hp
    simp only [buildLists] at hp
    rw [List.zip_append (by simp)] at hp
    rcases List.mem_append.mp hp with hp | hp
    · have hm := List.of_mem_zip hp
      have hb : b = i := List.eq_of_mem_replicate hm.2
      exact ⟨0, by simp, by omega, hm.1⟩
    · obtain ⟨k, hk, hb, ha⟩ := ih (i + 1) a b hp
      exact ⟨k + 1, by simpa using Nat.succ_lt_succ hk, by omega, ha⟩

/-- C7: cell 10's enumeration invariant. `class_names` is the sorted
list of subdirectory names of the data directory; the file list and the
label list have equal length `sum(num_each)`; every label is a valid
class index; and the `k`-th file path lies under the directory named by
its paired label's class (it joins that class directory with one of its
directory entries). -/
theorem enumeration_invariant (listdir : String → List String)
    (isdir : String → Bool) (data_dir : String) :
    List.Sorted (· ≤ ·) (classNames listdir isdir data_dir) ∧
    List.Perm (classNames listdir isdir data_dir)
      ((listdir data_dir).filter (fun x => isdir (pathJoin data_dir x))) ∧
    (imageFilesList listdir isdir data_dir).length =
      (numEach listdir isdir data_dir).sum ∧
    (imageClass listdir isdir data_dir).length =
      (numEach listdir isdir data_dir).sum ∧
    (∀ j ∈ imageClass listdir isdir data_dir,
      j < (classNames listdir isdir data_dir).length) ∧
    ∀ a b, (a, b) ∈ (imageFilesList listdir isdir data_dir).zip
        (imageClass listdir isdir data_dir) →
      ∃ hj : b < (classNames listdir isdir data_dir).length,
        ∃ x ∈ listdir (pathJoin data_dir
            ((classNames listdir isdir data_dir).get ⟨b, hj⟩)),
          a = pathJoin (pathJoin data_dir
            ((classNames listdir isdir data_dir).get ⟨b, hj⟩)) x := by
  have hlen : (imageFiles listdir isdir data_dir).length =
      (classNames listdir isdir data_dir).length := by
    rw [imageFiles]
    exact List.length_map _ _
  refine ⟨?_, ?_, ?_, ?_, ?_, ?_⟩
  · exact List.sorted_insertionSort _ _
  · exact List.perm_insertionSort _ _
  · rw [imageFilesList, numEach]
    exact (buildLists_length (imageFiles listdir isdir data_dir) 0).1
  · rw [imageClass, numEach]
    exact (buildLists_length (imageFiles listdir isdir data_dir) 0).2
  · intro j hj
    obtain ⟨k, hk, hjk⟩ :=
      buildLists_class_mem (imageFiles listdir isdir data_dir) 0 j hj
    omega
  · intro a b hp
    obtain ⟨k, hk, hb, ha⟩ :=
      buildLists_zip_mem (imageFiles listdir isdir data_dir) 0 a b hp
    have hb2 : b = k := by omega
    subst hb2
    have hj : b < (classNames listdir isdir data_dir).length := by omega
    refine ⟨hj, ?_⟩
    have hmap : (imageFiles listdir isdir data_dir).get ⟨b, hk⟩ =
        (listdir (pathJoin data_dir
          ((classNames listdir isdir data_dir).get ⟨b, hj⟩))).map
          (fun x => pathJoin (pathJoin data_dir
            ((classNames listdir isdir data_dir).get ⟨b, hj⟩)) x) := by
      simp [imageFiles]
    rw [hmap] at ha
    obtain ⟨x, hx, hpx⟩ := List.mem_map.mp ha
    exact ⟨x, hx, hpx.symm⟩

/-- C7 witness: a concrete directory tree with two class directories and
one stray file. -/
theorem enumeration_invariant_witness :
    (imageFilesList
        (fun p => if p == "/d/MedNIST" then ["Hand", "README.txt", "AbdomenCT"]
          else if p == "/d/MedNIST/Hand" then ["h1.png"]
          else if p == "/d/MedNIST/AbdomenCT" then ["a1.png", "a2.png"]
          else [])
        (fun p => p == "/d/MedNIST/Hand" || p == "/d/MedNIST/AbdomenCT")
        "/d/MedNIST").length =
      (numEach
        (fun p => if p == "/d/MedNIST" then ["Hand", "README.txt", "AbdomenCT"]
          else if p == "/d/MedNIST/Hand" then ["h1.png"]
          else if p == "/d/MedNIST/AbdomenCT" then ["a1.png", "a2.png"]
          else [])
        (fun p => p == "/d/MedNIST/Hand" || p == "/d/MedNIST/AbdomenCT")
        "/d/MedNIST").sum ∧
    ∀ j ∈ imageClass
        (fun p => if p == "/d/MedNIST" then ["Hand", "README.txt", "AbdomenCT"]
          else if p == "/d/MedNIST/Hand" then ["h1.png"]
          else if p == "/d/MedNIST/AbdomenCT" then ["a1.png", "a2.png"]
          else [])
        (fun p => p == "/d/MedNIST/Hand" || p == "/d/MedNIST/AbdomenCT")
        "/d/MedNIST",
      j < (classNames
        (fun p => if p == "/d/MedNIST" then ["Hand", "README.txt", "AbdomenCT"]
          else if p == "/d/MedNIST/Hand" then ["h1.png"]
          else if p == "/d/MedNIST/AbdomenCT" then ["a1.png", "a2.png"]
          else [])
        (fun p => p == "/d/MedNIST/Hand" || p == "/d/MedNIST/AbdomenCT")
        "/d/MedNIST").length :=
  ⟨(enumeration_invariant
      (fun p => if p == "/d/MedNIST" then ["Hand", "README.txt", "AbdomenCT"]
        else if p == "/d/MedNIST/Hand" then ["h1.png"]
        else if p == "/d/MedNIST/AbdomenCT" then ["a1.png", "a2.png"]
        else [])
      (fun p => p == "/d/MedNIST/Hand" || p == "/d/MedNIST/AbdomenCT")
      "/d/MedNIST").2.2.1,
    (enumeration_invariant
      (fun p => if p == "/d/MedNIST" then ["Hand", "README.txt", "AbdomenCT"]
        else if p == "/d/MedNIST/Hand" then ["h1.png"]
        else if p == "/d/MedNIST/AbdomenCT" then ["a1.png", "a2.png"]
        else [])
      (fun p => p == "/d/MedNIST/Hand" || p == "/d/MedNIST/AbdomenCT")
      "/d/MedNIST").2.2.2.2.1⟩

end Lab2
